import Mathlib

/-!
# Shallow embedding of the structured-text line-breaking core of `TextBlock`

This file embeds the structured-text layout code of the `TextBlock` control
(`_breakStructuredTextLines`, `_parseStructuredTextLine`,
`_parseStructuredTextLineWordWrap`, `_parseStructuredTextLineEllipsis`,
`_structuredTextWidth`, `_fuseStructuredTextParts`,
`_defaultWordSplittingFunction`) and proves the spec's claims about it.

Modelling conventions:
* JS strings are `List Char` (the source uses `Array.from` for code points).
* JS numbers are rationals `ℚ` where the algorithms compare widths; where a
  claim is about non-finite values, the width type is `JsNum`, which adds the
  IEEE specials.  The width adapter is polymorphic in the width type, exactly
  as the source is agnostic about what `measureText` returns.
* The injected measurement service is a parameter
  `M : String → List Char → W` (composed font description, text).
* In-place mutation of the run's `width` cache is modelled by returning the
  updated run list from the adapter and threading it, which is what the JS
  mutation amounts to for this single-threaded code.
* The two loops of the Ellipsis policy remove exactly one character
  (resp. one run) per pass; the embedding makes that explicit with a
  structural counter initialised to the character (resp. run) count, so the
  recursion is structural and the definitions compute.
-/

/-- JS `number`: a finite rational or one of the IEEE specials. -/
inductive JsNum where
  | fin : ℚ → JsNum
  | nan : JsNum
  | inf : JsNum
  | ninf : JsNum
deriving DecidableEq

/-- JS `+` on numbers: specials absorb, opposite infinities give `NaN`. -/
def JsNum.add : JsNum → JsNum → JsNum
  | .fin a, .fin b => .fin (a + b)
  | .fin _, .inf => .inf
  | .fin _, .ninf => .ninf
  | .inf, .fin _ => .inf
  | .ninf, .fin _ => .ninf
  | .inf, .inf => .inf
  | .ninf, .ninf => .ninf
  | .inf, .ninf => .nan
  | .ninf, .inf => .nan
  | .nan, _ => .nan
  | _, .nan => .nan

instance : Add JsNum := ⟨JsNum.add⟩

instance : Zero JsNum := ⟨JsNum.fin 0⟩

/-- Whether a JS number is finite (neither `NaN` nor an infinity). -/
def JsNum.isFinite : JsNum → Bool
  | .fin _ => true
  | _ => false

/-- `StructuredTextPart`: one styled run.  All style overrides are optional
(`none` = inherit from the block); `width` is the lazily computed width
cache (`undefined` in the source = `none` here).  `W` is the width type. -/
structure StructuredTextPart (W : Type) where
  text : List Char
  color : Option String := none
  underline : Option Bool := none
  lineThrough : Option Bool := none
  fontStyle : Option String := none
  fontWeight : Option String := none
  outlineWidth : Option ℚ := none
  outlineColor : Option String := none
  shadowColor : Option String := none
  shadowBlur : Option ℚ := none
  shadowOffsetX : Option ℚ := none
  shadowOffsetY : Option ℚ := none
  width : Option W := none
deriving DecidableEq

/-- `StructuredTextLine`: a produced line, `{ parts, width }`. -/
structure StructuredTextLine (W : Type) where
  parts : List (StructuredTextPart W)
  width : W
deriving DecidableEq

/-- The `TextWrapping` enum. -/
inductive TextWrapping where
  | Clip
  | WordWrap
  | Ellipsis
deriving DecidableEq

/-- The block-level font defaults of the owning `TextBlock`
(`this._style?.fontStyle ?? this._fontStyle` etc. collapsed into one
block-level value, plus the block-wide `fontSize` and `_fontFamily`). -/
structure BlockDefaults where
  fontStyle : String
  fontWeight : String
  fontSize : String
  fontFamily : String
deriving DecidableEq

/-- The font description composed by `_inheritAttributes` followed by
`_setContextAttributesForMeasure`:
`fontStyle + " " + fontWeight + " " + fontSize + " " + fontFamily`,
where style and weight are the run's override if present, else the block's. -/
def fontDescriptionFor {W : Type} (blk : BlockDefaults) (p : StructuredTextPart W) : String :=
  p.fontStyle.getD blk.fontStyle ++ " " ++ p.fontWeight.getD blk.fontWeight
    ++ " " ++ blk.fontSize ++ " " ++ blk.fontFamily

/-- The width `_structuredTextWidth` uses for a part: the cached value when
present, else the measurement service's answer for the composed font and the
part's text. -/
def measuredPartWidth {W : Type} (M : String → List Char → W) (blk : BlockDefaults)
    (p : StructuredTextPart W) : W :=
  match p.width with
  | some w => w
  | none => M (fontDescriptionFor blk p) p.text

/-- A part after `_structuredTextWidth` has visited it: the width cache is
filled (with the cached value if it was present, else the fresh measure). -/
def fillPartWidth {W : Type} (M : String → List Char → W) (blk : BlockDefaults)
    (p : StructuredTextPart W) : StructuredTextPart W :=
  { p with width := some (measuredPartWidth M blk p) }

/-- The result of `_structuredTextWidth`: the run list with caches filled,
the accumulated total, and how many times `context.save()` / `restore()`
were invoked during the pass. -/
structure MeasureResult (W : Type) where
  parts : List (StructuredTextPart W)
  width : W
  saves : Nat
  restores : Nat
deriving DecidableEq

/-- The body of `_structuredTextWidth`'s `reduce`: walk the parts, measure
any part with an undefined width and store the result on it, and accumulate
`width + part.width`.  `ctxSaved` is the source's `contextSaved` flag: the
source initialises it to `false`, tests `if (!contextSaved) context.save()`,
and never assigns it afterwards, so it is threaded through unchanged. -/
def stwGo {W : Type} [Add W] (M : String → List Char → W) (blk : BlockDefaults) :
    List (StructuredTextPart W) → Bool → W → Nat →
      List (StructuredTextPart W) × W × Bool × Nat
  | [], ctxSaved, width, saves => ([], width, ctxSaved, saves)
  | p :: rest, ctxSaved, width, saves =>
    match p.width with
    | some w =>
      let r := stwGo M blk rest ctxSaved (width + w) saves
      (p :: r.1, r.2)
    | none =>
      let saves' := if ctxSaved then saves else saves + 1
      let w := M (fontDescriptionFor blk p) p.text
      let r := stwGo M blk rest ctxSaved (width + w) saves'
      ({ p with width := some w } :: r.1, r.2)

/-- `_structuredTextWidth`: set the width of each part and return the total;
`context.restore()` runs at the end only if `contextSaved` is set. -/
def _structuredTextWidth {W : Type} [Add W] [Zero W] (M : String → List Char → W)
    (blk : BlockDefaults) (line : List (StructuredTextPart W)) : MeasureResult W :=
  let r := stwGo M blk line false 0 0
  { parts := r.1, width := r.2.1, saves := r.2.2.2,
    restores := if r.2.2.1 then 1 else 0 }

/-- The attribute comparison of `_fuseStructuredTextParts`: strict equality
of the eleven stored override fields, in the source's order. -/
def sameAttributes {W : Type} (a b : StructuredTextPart W) : Bool :=
  a.color == b.color
    && a.outlineWidth == b.outlineWidth && a.outlineColor == b.outlineColor
    && a.shadowColor == b.shadowColor && a.shadowBlur == b.shadowBlur
    && a.shadowOffsetX == b.shadowOffsetX && a.shadowOffsetY == b.shadowOffsetY
    && a.underline == b.underline
    && a.lineThrough == b.lineThrough
    && a.fontStyle == b.fontStyle && a.fontWeight == b.fontWeight

/-- The loop of `_fuseStructuredTextParts`: `lastInserted` is the run being
grown in the output, `last` is the previous input run (the source compares
`last`, not `lastInserted`, against the current run). -/
def fuseGo (lastInserted last : StructuredTextPart ℚ) :
    List (StructuredTextPart ℚ) → List (StructuredTextPart ℚ)
  | [] => [lastInserted]
  | part :: rest =>
    if sameAttributes last part then
      fuseGo
        { lastInserted with
            text := lastInserted.text ++ part.text,
            width := some (lastInserted.width.getD 0 + part.width.getD 0) }
        part rest
    else
      lastInserted :: fuseGo part part rest

/-- `_fuseStructuredTextParts`: join consecutive parts sharing the exact
same attributes; an input of length ≤ 1 is returned unchanged. -/
def _fuseStructuredTextParts : List (StructuredTextPart ℚ) → List (StructuredTextPart ℚ)
  | [] => []
  | [p] => [p]
  | p :: rest => fuseGo p p rest

/-- The loop of `_defaultWordSplittingFunction`, reformulated as a single
left-to-right scan: the source's regexp loop cuts the string before every
space that starts a maximal space run (a match of `/ +/g`), except at index
0, and keeps everything (the whitespace stays on the right-hand side of each
cut).  `cur` is the current token accumulated in reverse, `prev` the
previous character. -/
def wordSplitGo (cur : List Char) (prev : Char) : List Char → List (List Char)
  | [] => [cur.reverse]
  | c :: rest =>
    if c = ' ' ∧ prev ≠ ' ' then
      cur.reverse :: wordSplitGo [c] c rest
    else
      wordSplitGo (c :: cur) c rest

/-- `_defaultWordSplittingFunction`: split at each maximal run of spaces,
keeping the spaces attached to the following token; the empty string yields
no tokens (the source pushes only non-empty slices). -/
def _defaultWordSplittingFunction : List Char → List (List Char)
  | [] => []
  | c :: rest => wordSplitGo [c] c rest

/-- Concatenated text of a run sequence. -/
def concatText {W : Type} (l : List (StructuredTextPart W)) : List Char :=
  (l.map (·.text)).flatten

/-- Total cached width of a run sequence (an absent cache counts 0, as in
the source's `(x.width || 0)` at `ℚ`, where 0 is the only falsy value). -/
def sumWidth (l : List (StructuredTextPart ℚ)) : ℚ :=
  (l.map (fun p => p.width.getD 0)).sum

/-- JS `String.prototype.trimStart`: drop leading whitespace. -/
def trimStart (s : List Char) : List Char :=
  s.dropWhile (fun c => c.isWhitespace)

/-- The token that restarts a candidate line after an overflow revert:
`_word.text = _word.text.trimStart(); delete _word.width`. -/
def lineStartToken (w : StructuredTextPart ℚ) : StructuredTextPart ℚ :=
  { w with text := trimStart w.text, width := none }

/-- The cache-filled tokens a WordWrap line is built from when its token
group starts a fresh line: the first token is the trimmed, re-measured
restart token, the rest are measured as split. -/
def wordWrapLaterTokens (M : String → List Char → ℚ) (blk : BlockDefaults) :
    List (StructuredTextPart ℚ) → List (StructuredTextPart ℚ)
  | [] => []
  | w :: ws => fillPartWidth M blk (lineStartToken w) :: ws.map (fillPartWidth M blk)

/-- The word-building prologue of `_parseStructuredTextLineWordWrap`: every
part of the line is split by the word splitting function, and each word
becomes a copy of its source part (`Object.assign`, so the cached width is
copied too) with the word as its text. -/
def structuredTextWords (splitFn : List Char → List (List Char))
    (line : List (StructuredTextPart ℚ)) : List (StructuredTextPart ℚ) :=
  (line.map (fun p => (splitFn p.text).map (fun t => { p with text := t }))).flatten

/-- The greedy loop of `_parseStructuredTextLineWordWrap`: push the next
word onto the test line and re-measure; if the result overflows and the test
line held more than the one word, pop it, emit the previous candidate
(fused, with the previous width), and restart from the popped word with its
leading whitespace trimmed and its width cache cleared. -/
def wordWrapGo (M : String → List Char → ℚ) (blk : BlockDefaults) (width : ℚ) :
    List (StructuredTextPart ℚ) → ℚ → List (StructuredTextPart ℚ) →
      List (StructuredTextLine ℚ)
  | testLine, testWidth, [] => [⟨_fuseStructuredTextParts testLine, testWidth⟩]
  | testLine, testWidth, word :: rest =>
    let r := _structuredTextWidth M blk (testLine ++ [word])
    if width < r.width ∧ 1 < (testLine ++ [word]).length then
      let r2 := _structuredTextWidth M blk [lineStartToken word]
      ⟨_fuseStructuredTextParts r.parts.dropLast, testWidth⟩
        :: wordWrapGo M blk width r2.parts r2.width rest
    else
      wordWrapGo M blk width r.parts r.width rest

/-- `_parseStructuredTextLineWordWrap`. -/
def _parseStructuredTextLineWordWrap (M : String → List Char → ℚ) (blk : BlockDefaults)
    (splitFn : List Char → List (List Char)) (width : ℚ)
    (line : List (StructuredTextPart ℚ)) : List (StructuredTextLine ℚ) :=
  wordWrapGo M blk width [] 0 (structuredTextWords splitFn line)

/-- The ellipsis marker character appended by the Ellipsis policy. -/
def ellipsisMarker : Char := '…'

/-- The inner loop of `_parseStructuredTextLineEllipsis`: while characters
remain in the last part and the line is too wide, pop one character, set the
last part's text to the remaining characters plus the marker, clear its
width cache, and re-measure the whole line.  The loop removes one character
per pass, so `fuel` (initialised to the character count) makes the recursion
structural; `pfx` is the line without its last part. -/
def ellipsisShrink (M : String → List Char → ℚ) (blk : BlockDefaults) (target : ℚ) :
    Nat → List Char → List (StructuredTextPart ℚ) → StructuredTextPart ℚ → ℚ →
      List (StructuredTextPart ℚ) × StructuredTextPart ℚ × ℚ
  | 0, _, pfx, lastPart, lineWidth => (pfx, lastPart, lineWidth)
  | fuel + 1, chars, pfx, lastPart, lineWidth =>
    if target < lineWidth then
      let chars2 := chars.dropLast
      let p2 : StructuredTextPart ℚ :=
        { lastPart with text := chars2 ++ [ellipsisMarker], width := none }
      let r := _structuredTextWidth M blk (pfx ++ [p2])
      ellipsisShrink M blk target fuel chars2 r.parts.dropLast (r.parts.getLastD p2) r.width
    else
      (pfx, lastPart, lineWidth)

/-- The outer loop of `_parseStructuredTextLineEllipsis`: while parts remain
and the line is too wide, run the inner loop on the last part; if the line
is still too wide afterwards, pop the last part.  The loop pops one part per
pass, so `fuel` (initialised to the part count) makes it structural. -/
def ellipsisOuter (M : String → List Char → ℚ) (blk : BlockDefaults) (target : ℚ) :
    Nat → List (StructuredTextPart ℚ) → ℚ → List (StructuredTextPart ℚ) × ℚ
  | 0, line, lineWidth => (line, lineWidth)
  | fuel + 1, line, lineWidth =>
    match line with
    | [] => ([], lineWidth)
    | p :: ps =>
      if target < lineWidth then
        let lastPart := (p :: ps).getLast (by simp)
        let pfx := (p :: ps).dropLast
        let s := ellipsisShrink M blk target lastPart.text.length lastPart.text pfx lastPart lineWidth
        if target < s.2.2 then
          ellipsisOuter M blk target fuel s.1 s.2.2
        else
          (s.1 ++ [s.2.1], s.2.2)
      else
        (p :: ps, lineWidth)

/-- `_parseStructuredTextLineEllipsis`. -/
def _parseStructuredTextLineEllipsis (M : String → List Char → ℚ) (blk : BlockDefaults)
    (target : ℚ) (line : List (StructuredTextPart ℚ)) : StructuredTextLine ℚ :=
  let r := _structuredTextWidth M blk line
  let o := ellipsisOuter M blk target r.parts.length r.parts r.width
  ⟨o.1, o.2⟩

/-- `_parseStructuredTextLine` (the Clip per-group step): measure and wrap. -/
def _parseStructuredTextLine (M : String → List Char → ℚ) (blk : BlockDefaults)
    (line : List (StructuredTextPart ℚ)) : StructuredTextLine ℚ :=
  let r := _structuredTextWidth M blk line
  ⟨r.parts, r.width⟩

/-- JS `String.prototype.split` with a single-character separator: always a
non-empty token list, with an empty token for each boundary touch. -/
def jsSplit (sep : Char) : List Char → List (List Char)
  | [] => [[]]
  | c :: rest =>
    match jsSplit sep rest with
    | [] => [[]]
    | t :: ts => if c = sep then [] :: t :: ts else (c :: t) :: ts

/-- The explicit-newline pre-pass of `_breakStructuredTextLines`: walk the
run sequence keeping a current group; a run whose text contains a newline is
split at every newline, and each fragment is pushed onto the current group
after which a fresh group is started — including after the final fragment,
exactly as the source does. -/
def breakGroupsGo : List (StructuredTextPart ℚ) → List (StructuredTextPart ℚ) →
    List (List (StructuredTextPart ℚ))
  | currentLine, [] => [currentLine]
  | currentLine, p :: rest =>
    if p.text.contains '\n' then
      match (jsSplit '\n' p.text).map (fun t => { p with text := t }) with
      | [] => breakGroupsGo currentLine rest
      | s1 :: srest =>
        ((currentLine ++ [s1]) :: srest.map (fun s => [s])) ++ breakGroupsGo [] rest
    else
      breakGroupsGo (currentLine ++ [p]) rest

/-- `_breakStructuredTextLines`: newline pre-pass, then per-group breaking
by the active policy. -/
def _breakStructuredTextLines (M : String → List Char → ℚ) (blk : BlockDefaults)
    (splitFn : List Char → List (List Char)) (mode : TextWrapping) (refWidth : ℚ)
    (structuredText : List (StructuredTextPart ℚ)) : List (StructuredTextLine ℚ) :=
  let groups := breakGroupsGo [] structuredText
  match mode with
  | .Ellipsis => groups.map (_parseStructuredTextLineEllipsis M blk refWidth)
  | .WordWrap => (groups.map (_parseStructuredTextLineWordWrap M blk splitFn refWidth)).flatten
  | .Clip => groups.map (_parseStructuredTextLine M blk)

/-! ## Concrete instances used for evaluation -/

/-- Rational character count (by recursion, so that it evaluates). -/
def qlen : List Char → ℚ
  | [] => 0
  | _ :: r => 1 + qlen r

/-- A concrete deterministic measurement service: one pixel per character. -/
def M0 : String → List Char → ℚ := fun _ t => qlen t

/-- Concrete block defaults. -/
def blk0 : BlockDefaults :=
  { fontStyle := "normal", fontWeight := "normal", fontSize := "16px", fontFamily := "Arial" }

/-- A concrete run whose text contains a newline. -/
def partHW : StructuredTextPart ℚ := { text := "hello\nworld".toList }

/-- Concrete uncached runs. -/
def pA : StructuredTextPart ℚ := { text := "a".toList }

/-- Concrete uncached runs. -/
def pB : StructuredTextPart ℚ := { text := "b".toList }

/-- The "hello" fragment produced by the newline pre-pass. -/
def partH : StructuredTextPart ℚ := { text := ['h', 'e', 'l', 'l', 'o'] }

/-- The "world" fragment produced by the newline pre-pass. -/
def partW : StructuredTextPart ℚ := { text := ['w', 'o', 'r', 'l', 'd'] }

/-- A measurement service that always fails to a non-finite value. -/
def Mnan : String → List Char → JsNum := fun _ _ => JsNum.nan

/-- A concrete uncached run over the JS number type. -/
def partA : StructuredTextPart JsNum := { text := "a".toList }

/-- The run produced when `_fuseStructuredTextParts` merges run `b` into
run `a`: texts concatenated, widths summed (`(x.width || 0)`). -/
def mergeParts (a b : StructuredTextPart ℚ) : StructuredTextPart ℚ :=
  { a with text := a.text ++ b.text, width := some (a.width.getD 0 + b.width.getD 0) }

/-- The text a WordWrap output line shows for a group of tokens that starts
a fresh line: the first token is left-trimmed, the rest are kept whole. -/
def groupLineText (g : List (List Char)) : List Char :=
  match g with
  | [] => []
  | t :: ts => trimStart t ++ ts.flatten

/-- A run's width cache is coherent with the measurement service: if a
cached value is present it equals what the service returns for the run's
font and text (the spec's invariant that `width` is cleared whenever `text`
changes and otherwise holds the measured value). -/
def partCacheCoherent (M : String → List Char → ℚ) (blk : BlockDefaults)
    (p : StructuredTextPart ℚ) : Prop :=
  ∀ w, p.width = some w → w = M (fontDescriptionFor blk p) p.text

/-- The value the measurement service alone assigns to a run (its composed
font and its text), ignoring any cache. -/
def pureMeasure (M : String → List Char → ℚ) (blk : BlockDefaults)
    (p : StructuredTextPart ℚ) : ℚ :=
  M (fontDescriptionFor blk p) p.text

/-- Sum of the service-measured widths of a run sequence. -/
def pureMeasureSum (M : String → List Char → ℚ) (blk : BlockDefaults)
    (l : List (StructuredTextPart ℚ)) : ℚ :=
  (l.map (pureMeasure M blk)).sum

/-- The last run as rewritten by one pass of the Ellipsis inner loop: the
remaining characters plus the marker, width cache cleared. -/
def truncatedPart (lastPart : StructuredTextPart ℚ) (chars2 : List Char) :
    StructuredTextPart ℚ :=
  { lastPart with text := chars2 ++ [ellipsisMarker], width := none }

/-! ## Basic lemmas about the width adapter -/

lemma fillPartWidth_of_some {W : Type} (M : String → List Char → W) (blk : BlockDefaults)
    {p : StructuredTextPart W} {w : W} (h : p.width = some w) :
    fillPartWidth M blk p = p := by
  cases p
  cases h
  rfl

lemma fillPartWidth_text {W : Type} (M : String → List Char → W) (blk : BlockDefaults)
    (p : StructuredTextPart W) : (fillPartWidth M blk p).text = p.text := rfl

lemma fillPartWidth_fontDescription {W : Type} (M : String → List Char → W)
    (blk : BlockDefaults) (p : StructuredTextPart W) :
    fontDescriptionFor blk (fillPartWidth M blk p) = fontDescriptionFor blk p := rfl

lemma fill_idem (M : String → List Char → ℚ) (blk : BlockDefaults)
    (p : StructuredTextPart ℚ) :
    fillPartWidth M blk (fillPartWidth M blk p) = fillPartWidth M blk p :=
  fillPartWidth_of_some M blk (w := measuredPartWidth M blk p) rfl

lemma stwGo_parts {W : Type} [Add W] (M : String → List Char → W) (blk : BlockDefaults) :
    ∀ (l : List (StructuredTextPart W)) (cs : Bool) (w : W) (sv : Nat),
      (stwGo M blk l cs w sv).1 = l.map (fillPartWidth M blk) := by
  intro l
  induction l with
  | nil => intro cs w sv; rfl
  | cons p rest ih =>
    intro cs w sv
    cases hp : p.width with
    | some wp => simp [stwGo, hp, ih, fillPartWidth_of_some M blk hp]
    | none => simp [stwGo, hp, ih, fillPartWidth, measuredPartWidth]

lemma stwGo_width {W : Type} [Add W] (M : String → List Char → W) (blk : BlockDefaults) :
    ∀ (l : List (StructuredTextPart W)) (cs : Bool) (w : W) (sv : Nat),
      (stwGo M blk l cs w sv).2.1 =
        List.foldl (· + ·) w (l.map (measuredPartWidth M blk)) := by
  intro l
  induction l with
  | nil => intro cs w sv; rfl
  | cons p rest ih =>
    intro cs w sv
    cases hp : p.width with
    | some wp => simp [stwGo, hp, ih, measuredPartWidth]
    | none => simp [stwGo, hp, ih, measuredPartWidth]

lemma stwGo_ctx {W : Type} [Add W] (M : String → List Char → W) (blk : BlockDefaults) :
    ∀ (l : List (StructuredTextPart W)) (cs : Bool) (w : W) (sv : Nat),
      (stwGo M blk l cs w sv).2.2.1 = cs := by
  intro l
  induction l with
  | nil => intro cs w sv; rfl
  | cons p rest ih =>
    intro cs w sv
    cases hp : p.width with
    | some wp => simp [stwGo, hp, ih]
    | none => simp [stwGo, hp, ih]

lemma structuredTextWidth_parts {W : Type} [Add W] [Zero W] (M : String → List Char → W)
    (blk : BlockDefaults) (l : List (StructuredTextPart W)) :
    (_structuredTextWidth M blk l).parts = l.map (fillPartWidth M blk) := by
  simp [_structuredTextWidth, stwGo_parts]

lemma structuredTextWidth_restores {W : Type} [Add W] [Zero W] (M : String → List Char → W)
    (blk : BlockDefaults) (l : List (StructuredTextPart W)) :
    (_structuredTextWidth M blk l).restores = 0 := by
  simp [_structuredTextWidth, stwGo_ctx]

lemma foldl_add_rat (a : ℚ) (l : List ℚ) : l.foldl (· + ·) a = a + l.sum := by
  induction l generalizing a with
  | nil => simp
  | cons x xs ih => simp [ih, add_assoc]

lemma structuredTextWidth_width (M : String → List Char → ℚ) (blk : BlockDefaults)
    (l : List (StructuredTextPart ℚ)) :
    (_structuredTextWidth M blk l).width = (l.map (measuredPartWidth M blk)).sum := by
  simp [_structuredTextWidth, stwGo_width, foldl_add_rat]

lemma concatText_cons {W : Type} (p : StructuredTextPart W) (l : List (StructuredTextPart W)) :
    concatText (p :: l) = p.text ++ concatText l := by
  simp [concatText]

lemma concatText_append {W : Type} (a b : List (StructuredTextPart W)) :
    concatText (a ++ b) = concatText a ++ concatText b := by
  simp [concatText]

lemma concatText_map_fill {W : Type} (M : String → List Char → W) (blk : BlockDefaults)
    (l : List (StructuredTextPart W)) :
    concatText (l.map (fillPartWidth M blk)) = concatText l := by
  induction l with
  | nil => rfl
  | cons p rest ih => simp [concatText_cons, ih, fillPartWidth_text]

/-! ## Lemmas about run fusion -/

lemma fuseGo_concatText :
    ∀ (rest : List (StructuredTextPart ℚ)) (li la : StructuredTextPart ℚ),
      concatText (fuseGo li la rest) = li.text ++ concatText rest := by
  intro rest
  induction rest with
  | nil => intro li la; simp [fuseGo, concatText_cons]
  | cons part rest ih =>
    intro li la
    by_cases h : sameAttributes la part
    · simp [fuseGo, h, ih, concatText_cons, List.append_assoc]
    · simp [fuseGo, h, ih, concatText_cons]

lemma sumWidth_cons (p : StructuredTextPart ℚ) (l : List (StructuredTextPart ℚ)) :
    sumWidth (p :: l) = p.width.getD 0 + sumWidth l := by
  simp [sumWidth]

lemma fuseGo_sumWidth :
    ∀ (rest : List (StructuredTextPart ℚ)) (li la : StructuredTextPart ℚ),
      sumWidth (fuseGo li la rest) = li.width.getD 0 + sumWidth rest := by
  intro rest
  induction rest with
  | nil => intro li la; simp [fuseGo, sumWidth]
  | cons part rest ih =>
    intro li la
    by_cases h : sameAttributes la part
    · show sumWidth (if sameAttributes la part = true then _ else _) = _
      rw [if_pos h, ih]
      simp [sumWidth_cons, add_assoc]
    · show sumWidth (if sameAttributes la part = true then _ else _) = _
      rw [if_neg h, sumWidth_cons, ih, sumWidth_cons]

lemma fuse_concatText (st : List (StructuredTextPart ℚ)) :
    concatText (_fuseStructuredTextParts st) = concatText st := by
  match st with
  | [] => rfl
  | [p] => rfl
  | p :: q :: rest =>
    show concatText (fuseGo p p (q :: rest)) = _
    rw [fuseGo_concatText]
    simp [concatText_cons, List.append_assoc]

lemma fuse_sumWidth (st : List (StructuredTextPart ℚ)) :
    sumWidth (_fuseStructuredTextParts st) = sumWidth st := by
  match st with
  | [] => rfl
  | [p] => rfl
  | p :: q :: rest =>
    show sumWidth (fuseGo p p (q :: rest)) = _
    rw [fuseGo_sumWidth]
    simp [sumWidth_cons, add_assoc]

lemma fuse_short (st : List (StructuredTextPart ℚ)) (h : st.length ≤ 1) :
    _fuseStructuredTextParts st = st := by
  match st with
  | [] => rfl
  | [p] => rfl
  | p :: q :: rest => simp at h

lemma fuse_singleton (p : StructuredTextPart ℚ) :
    _fuseStructuredTextParts [p] = [p] := rfl

lemma fuse_length_le_one {st : List (StructuredTextPart ℚ)} (h : st.length ≤ 1) :
    (_fuseStructuredTextParts st).length ≤ 1 := by
  rw [fuse_short st h]
  exact h

/-! ## C9: empty input run sequence -/

/-- Claim C9: for the empty input run sequence, line breaking under each of
the three policies produces exactly one line, with zero runs and width 0. -/
theorem C9_empty_input_single_empty_line (M : String → List Char → ℚ) (blk : BlockDefaults)
    (splitFn : List Char → List (List Char)) (target : ℚ) (mode : TextWrapping) :
    _breakStructuredTextLines M blk splitFn mode target [] = [⟨[], 0⟩] := by
  cases mode <;> rfl

/-! ## C10: save/restore balance in `_structuredTextWidth` -/

/-- Claim C10 (refuting evaluation): the source initialises `contextSaved`
to `false` and never sets it, so `context.save()` runs once per uncached
run and `context.restore()` never runs: measuring two uncached runs calls
`save` twice and `restore` zero times, and in general the restore count of
a measuring pass is always 0, never equal to a positive save count. -/
theorem C10_save_restore_unbalanced :
    (∀ (M : String → List Char → ℚ) (blk : BlockDefaults)
        (parts : List (StructuredTextPart ℚ)),
      (_structuredTextWidth M blk parts).restores = 0) ∧
    (_structuredTextWidth M0 blk0 [pA, pB]).saves = 2 ∧
    (_structuredTextWidth M0 blk0 [pA, pB]).restores = 0 := by
  refine ⟨fun M blk parts => structuredTextWidth_restores M blk parts, rfl, rfl⟩

/-! ## C2: non-finite measurement results -/

/-- Claim C2 (counterexample): measuring a run for which the measurement
service returns `NaN` stores `NaN` (not zero) as the run's width, and the
returned total width is not finite — the adapter performs no
zero-substitution. -/
theorem C2_counterexample_nan_is_stored :
    (_structuredTextWidth Mnan blk0 [partA]).width = JsNum.nan ∧
    (_structuredTextWidth Mnan blk0 [partA]).parts.map (fun p => p.width)
      = [some JsNum.nan] ∧
    JsNum.nan.isFinite = false := by
  exact ⟨rfl, rfl, rfl⟩

/-- Claim C2 (amended): the adapter stores the raw measurement result on
each previously-uncached run — finite or not — and returns the left fold of
`+` over the per-run widths; non-finite values propagate unchanged. -/
theorem C2_amended_raw_measurement_stored (M : String → List Char → JsNum)
    (blk : BlockDefaults) (parts : List (StructuredTextPart JsNum)) :
    (_structuredTextWidth M blk parts).parts = parts.map (fillPartWidth M blk) ∧
    (_structuredTextWidth M blk parts).width =
      List.foldl (· + ·) 0 (parts.map (measuredPartWidth M blk)) := by
  constructor
  · exact structuredTextWidth_parts M blk parts
  · simp [_structuredTextWidth, stwGo_width]

/-! ## C3 and C4: run fusion -/

/-- Claim C3: on a run sequence where every run carries a concrete cached
width, fusion preserves the total width and the concatenated text. -/
theorem C3_fusion_neutrality (st : List (StructuredTextPart ℚ))
    (h : ∀ p ∈ st, p.width.isSome) :
    sumWidth (_fuseStructuredTextParts st) = sumWidth st ∧
    concatText (_fuseStructuredTextParts st) = concatText st :=
  ⟨fuse_sumWidth st, fuse_concatText st⟩

/-- Witness for C3 at a concrete fully-cached input. -/
theorem C3_fusion_neutrality_witness :
    (∀ p ∈ [({ text := "a".toList, width := some 2 } : StructuredTextPart ℚ),
            { text := "b".toList, width := some 3 }], p.width.isSome) ∧
    (sumWidth (_fuseStructuredTextParts
        [({ text := "a".toList, width := some 2 } : StructuredTextPart ℚ),
         { text := "b".toList, width := some 3 }])
      = sumWidth
        [({ text := "a".toList, width := some 2 } : StructuredTextPart ℚ),
         { text := "b".toList, width := some 3 }] ∧
     concatText (_fuseStructuredTextParts
        [({ text := "a".toList, width := some 2 } : StructuredTextPart ℚ),
         { text := "b".toList, width := some 3 }])
      = concatText
        [({ text := "a".toList, width := some 2 } : StructuredTextPart ℚ),
         { text := "b".toList, width := some 3 }]) :=
  ⟨by decide, C3_fusion_neutrality _ (by decide)⟩

/-- Claim C4: fusion merges two adjacent runs iff all eleven stored override
fields agree by strict equality; length ≤ 1 inputs are returned unchanged;
and the output's concatenated text equals the input's (order preserved, no
non-empty run dropped). -/
theorem C4_fuse_characterisation :
    (∀ st : List (StructuredTextPart ℚ), st.length ≤ 1 → _fuseStructuredTextParts st = st) ∧
    (∀ a b : StructuredTextPart ℚ,
      _fuseStructuredTextParts [a, b] =
        if sameAttributes a b then [mergeParts a b] else [a, b]) ∧
    (∀ st : List (StructuredTextPart ℚ),
      concatText (_fuseStructuredTextParts st) = concatText st) := by
  refine ⟨fuse_short, ?_, fuse_concatText⟩
  intro a b
  show fuseGo a a [b] = _
  by_cases h : sameAttributes a b <;> simp [fuseGo, h, mergeParts]

/-- Witness for C4 at a concrete short input. -/
theorem C4_fuse_characterisation_witness :
    ([pA].length ≤ 1) ∧ _fuseStructuredTextParts [pA] = [pA] :=
  ⟨by decide, C4_fuse_characterisation.1 [pA] (by decide)⟩

/-! ## C5: the default word splitter -/

lemma wordSplitGo_spec :
    ∀ (rest cur : List Char) (prev : Char),
      ∃ u ts, wordSplitGo cur prev rest = (cur.reverse ++ u) :: ts ∧
        ((cur.reverse ++ u) :: ts).flatten = cur.reverse ++ rest ∧
        ∀ t ∈ ts, t.head? = some ' ' := by
  intro rest
  induction rest with
  | nil =>
    intro cur prev
    exact ⟨[], [], by simp [wordSplitGo], by simp, by simp⟩
  | cons c rest ih =>
    intro cur prev
    by_cases hc : c = ' ' ∧ prev ≠ ' '
    · obtain ⟨u', ts', h1, h2, h3⟩ := ih [c] c
      refine ⟨[], (c :: u') :: ts', ?_, ?_, ?_⟩
      · simp only [wordSplitGo, if_pos hc]
        rw [h1]
        simp
      · simp only [List.flatten_cons] at h2 ⊢
        simp only [List.reverse_singleton, List.singleton_append] at h2
        simp [h2]
      · intro t ht
        rcases List.mem_cons.mp ht with h | h
        · subst h; simp [hc.1]
        · exact h3 t h
    · obtain ⟨u', ts', h1, h2, h3⟩ := ih (c :: cur) c
      refine ⟨c :: u', ts', ?_, ?_, h3⟩
      · simp only [wordSplitGo, if_neg hc]
        rw [h1]
        simp
      · simp only [List.flatten_cons, List.reverse_cons] at h2 ⊢
        simp only [List.append_assoc, List.singleton_append] at h2
        simpa using h2

/-- Claim C5: the default word splitter is lossless — concatenating its
tokens reconstructs the input exactly — and every token after the first
begins with the space run that was attached to it rather than discarded. -/
theorem C5_default_splitter_lossless (s : List Char) :
    (_defaultWordSplittingFunction s).flatten = s ∧
    ∀ t ∈ (_defaultWordSplittingFunction s).tail, t.head? = some ' ' := by
  match s with
  | [] => exact ⟨rfl, by simp [_defaultWordSplittingFunction]⟩
  | c :: rest =>
    obtain ⟨u, ts, h1, h2, h3⟩ := wordSplitGo_spec rest [c] c
    constructor
    · show (wordSplitGo [c] c rest).flatten = _
      rw [h1]
      simpa using h2
    · show ∀ t ∈ (wordSplitGo [c] c rest).tail, t.head? = some ' '
      rw [h1]
      simpa using h3

/-- Witness for C5 at the concrete input "a b". -/
theorem C5_default_splitter_lossless_witness :
    (_defaultWordSplittingFunction "a b".toList).flatten = "a b".toList ∧
    (" b".toList).head? = some ' ' :=
  ⟨(C5_default_splitter_lossless "a b".toList).1,
   (C5_default_splitter_lossless "a b".toList).2 " b".toList (by decide)⟩

/-- A single word on an empty candidate line is always placed (the length
guard fails), so WordWrap on one token emits exactly one line. -/
lemma wordWrapGo_single (M : String → List Char → ℚ) (blk : BlockDefaults)
    (width tw : ℚ) (word : StructuredTextPart ℚ) :
    wordWrapGo M blk width [] tw [word] =
      [⟨_fuseStructuredTextParts (_structuredTextWidth M blk [word]).parts,
        (_structuredTextWidth M blk [word]).width⟩] := by
  simp [wordWrapGo]

/-- The Ellipsis outer loop is the identity when the line already fits. -/
lemma ellipsisOuter_fits (M : String → List Char → ℚ) (blk : BlockDefaults)
    (target : ℚ) (fuel : Nat) (line : List (StructuredTextPart ℚ)) (w : ℚ)
    (h : ¬ target < w) : ellipsisOuter M blk target fuel line w = (line, w) := by
  match fuel, line with
  | 0, line => rfl
  | fuel + 1, [] => rfl
  | fuel + 1, p :: ps => simp [ellipsisOuter, h]

/-- The Ellipsis policy leaves a fitting group unchanged (caches filled). -/
lemma parseStructuredTextLineEllipsis_fits (M : String → List Char → ℚ)
    (blk : BlockDefaults) (target : ℚ) (line : List (StructuredTextPart ℚ))
    (h : ¬ target < (_structuredTextWidth M blk line).width) :
    _parseStructuredTextLineEllipsis M blk target line =
      ⟨(_structuredTextWidth M blk line).parts, (_structuredTextWidth M blk line).width⟩ := by
  simp only [_parseStructuredTextLineEllipsis]
  rw [ellipsisOuter_fits _ _ _ _ _ _ h]

/-! ## C1: the newline pre-pass -/

/-- Claim C1 (refuting evaluation): for the single run
`{text := "hello\nworld"}` every wrapping mode emits three lines — "hello",
"world" and a trailing empty line — because the pre-pass starts a fresh
group after every newline fragment, including the last one.  The claim
(and the spec's scenario) require exactly two lines. -/
theorem C1_trailing_empty_line_emitted :
    ((_breakStructuredTextLines M0 blk0 _defaultWordSplittingFunction .Clip 1000 [partHW]).map
        (fun l => l.parts.map (·.text))
      = [["hello".toList], ["world".toList], []]) ∧
    ((_breakStructuredTextLines M0 blk0 _defaultWordSplittingFunction .WordWrap 1000 [partHW]).map
        (fun l => l.parts.map (·.text))
      = [["hello".toList], ["world".toList], []]) ∧
    ((_breakStructuredTextLines M0 blk0 _defaultWordSplittingFunction .Ellipsis 1000 [partHW]).map
        (fun l => l.parts.map (·.text))
      = [["hello".toList], ["world".toList], []]) := by
  have hg : breakGroupsGo [] [partHW] = [[partH], [partW], []] := by decide
  have hwords1 : structuredTextWords _defaultWordSplittingFunction [partH] = [partH] := by decide
  have hwords2 : structuredTextWords _defaultWordSplittingFunction [partW] = [partW] := by decide
  have hwidth1 : (_structuredTextWidth M0 blk0 [partH]).width = 5 := by
    rw [structuredTextWidth_width]
    norm_num [measuredPartWidth, partH, M0, qlen]
  have hwidth2 : (_structuredTextWidth M0 blk0 [partW]).width = 5 := by
    rw [structuredTextWidth_width]
    norm_num [measuredPartWidth, partW, M0, qlen]
  refine ⟨by decide, ?_, ?_⟩
  · have e1 : _parseStructuredTextLineWordWrap M0 blk0 _defaultWordSplittingFunction 1000 [partH]
        = [⟨_fuseStructuredTextParts (_structuredTextWidth M0 blk0 [partH]).parts,
            (_structuredTextWidth M0 blk0 [partH]).width⟩] := by
      rw [_parseStructuredTextLineWordWrap, hwords1, wordWrapGo_single]
    have e2 : _parseStructuredTextLineWordWrap M0 blk0 _defaultWordSplittingFunction 1000 [partW]
        = [⟨_fuseStructuredTextParts (_structuredTextWidth M0 blk0 [partW]).parts,
            (_structuredTextWidth M0 blk0 [partW]).width⟩] := by
      rw [_parseStructuredTextLineWordWrap, hwords2, wordWrapGo_single]
    show ((breakGroupsGo [] [partHW]).map
        (_parseStructuredTextLineWordWrap M0 blk0 _defaultWordSplittingFunction 1000)).flatten.map
        (fun l => l.parts.map (·.text)) = _
    rw [hg]
    simp only [List.map_cons, List.map_nil, e1, e2]
    simp only [structuredTextWidth_parts, List.map_cons, List.map_nil, fuse_singleton]
    decide
  · have e3 : _parseStructuredTextLineEllipsis M0 blk0 1000 [partH]
        = ⟨(_structuredTextWidth M0 blk0 [partH]).parts,
           (_structuredTextWidth M0 blk0 [partH]).width⟩ := by
      refine parseStructuredTextLineEllipsis_fits M0 blk0 1000 [partH] ?_
      rw [hwidth1]
      norm_num
    have e4 : _parseStructuredTextLineEllipsis M0 blk0 1000 [partW]
        = ⟨(_structuredTextWidth M0 blk0 [partW]).parts,
           (_structuredTextWidth M0 blk0 [partW]).width⟩ := by
      refine parseStructuredTextLineEllipsis_fits M0 blk0 1000 [partW] ?_
      rw [hwidth2]
      norm_num
    show ((breakGroupsGo [] [partHW]).map
        (_parseStructuredTextLineEllipsis M0 blk0 1000)).map
        (fun l => l.parts.map (·.text)) = _
    rw [hg]
    simp only [List.map_cons, List.map_nil, e3, e4]
    simp only [structuredTextWidth_parts, List.map_cons, List.map_nil]
    decide

/-! ## C6 and C7: WordWrap fit and progress -/

lemma structuredTextWidth_parts_length (M : String → List Char → ℚ) (blk : BlockDefaults)
    (l : List (StructuredTextPart ℚ)) :
    (_structuredTextWidth M blk l).parts.length = l.length := by
  rw [structuredTextWidth_parts, List.length_map]

lemma structuredTextWidth_width_eq_sumWidth (M : String → List Char → ℚ)
    (blk : BlockDefaults) (l : List (StructuredTextPart ℚ)) :
    (_structuredTextWidth M blk l).width
      = sumWidth ((_structuredTextWidth M blk l).parts) := by
  rw [structuredTextWidth_width, structuredTextWidth_parts, sumWidth, List.map_map]
  congr 1

lemma wordWrapGo_groups (M : String → List Char → ℚ) (blk : BlockDefaults) (target : ℚ) :
    ∀ (words curTokens : List (StructuredTextPart ℚ)) (testWidth : ℚ),
      curTokens.map (fillPartWidth M blk) = curTokens →
      testWidth = sumWidth curTokens →
      (testWidth ≤ target ∨ curTokens.length ≤ 1) →
      ∃ (g : List (StructuredTextPart ℚ)) (gs : List (List (StructuredTextPart ℚ))),
        words = g ++ gs.flatten ∧
        (∀ gi ∈ gs, gi ≠ []) ∧
        wordWrapGo M blk target curTokens testWidth words
          = ⟨_fuseStructuredTextParts (curTokens ++ g.map (fillPartWidth M blk)),
              sumWidth (curTokens ++ g.map (fillPartWidth M blk))⟩
            :: gs.map (fun gi =>
                ⟨_fuseStructuredTextParts (wordWrapLaterTokens M blk gi),
                  sumWidth (wordWrapLaterTokens M blk gi)⟩) ∧
        (sumWidth (curTokens ++ g.map (fillPartWidth M blk)) ≤ target ∨
          (curTokens ++ g.map (fillPartWidth M blk)).length ≤ 1) ∧
        (∀ gi ∈ gs, sumWidth (wordWrapLaterTokens M blk gi) ≤ target ∨ gi.length = 1) := by
  intro words
  induction words with
  | nil =>
    intro curTokens testWidth hstable hw hfit
    subst hw
    refine ⟨[], [], by simp, by simp, ?_, ?_, by simp⟩
    · simp [wordWrapGo]
    · simpa using hfit
  | cons word rest ih =>
    intro curTokens testWidth hstable hw hfit
    subst hw
    have hparts : (_structuredTextWidth M blk (curTokens ++ [word])).parts
        = curTokens ++ [fillPartWidth M blk word] := by
      rw [structuredTextWidth_parts, List.map_append, hstable]
      rfl
    by_cases hc : target < (_structuredTextWidth M blk (curTokens ++ [word])).width ∧
        1 < (curTokens ++ [word]).length
    · have hstep : wordWrapGo M blk target curTokens (sumWidth curTokens) (word :: rest)
          = ⟨_fuseStructuredTextParts
                (_structuredTextWidth M blk (curTokens ++ [word])).parts.dropLast,
              sumWidth curTokens⟩
            :: wordWrapGo M blk target
                (_structuredTextWidth M blk [lineStartToken word]).parts
                (_structuredTextWidth M blk [lineStartToken word]).width rest := by
        simp only [wordWrapGo]
        rw [if_pos hc]
      have hdrop : (_structuredTextWidth M blk (curTokens ++ [word])).parts.dropLast
          = curTokens := by
        rw [hparts]
        simp
      have hparts2 : (_structuredTextWidth M blk [lineStartToken word]).parts
          = [fillPartWidth M blk (lineStartToken word)] := by
        rw [structuredTextWidth_parts]
        rfl
      obtain ⟨g', gs', h1, h2, h3, h4, h5⟩ := ih
        (_structuredTextWidth M blk [lineStartToken word]).parts
        (_structuredTextWidth M blk [lineStartToken word]).width
        (by rw [hparts2]; simp [fill_idem])
        (structuredTextWidth_width_eq_sumWidth M blk [lineStartToken word])
        (by rw [hparts2]; exact Or.inr (by simp))
      refine ⟨[], (word :: g') :: gs', by simp [h1], ?_, ?_, by simpa using hfit, ?_⟩
      · intro gi hgi
        rcases List.mem_cons.mp hgi with h | h
        · subst h
          simp
        · exact h2 gi h
      · rw [hstep, hdrop, h3, hparts2]
        simp [wordWrapLaterTokens]
      · intro gi hgi
        rcases List.mem_cons.mp hgi with h | h
        · subst h
          rw [hparts2] at h4
          rcases h4 with h | h
          · refine Or.inl ?_
            simpa [wordWrapLaterTokens] using h
          · refine Or.inr ?_
            simp only [List.length_append, List.length_map, List.length_singleton,
              List.length_cons] at h ⊢
            omega
        · exact h5 gi h
    · have hstep : wordWrapGo M blk target curTokens (sumWidth curTokens) (word :: rest)
          = wordWrapGo M blk target
              (_structuredTextWidth M blk (curTokens ++ [word])).parts
              (_structuredTextWidth M blk (curTokens ++ [word])).width rest := by
        simp only [wordWrapGo]
        rw [if_neg hc]
      obtain ⟨g', gs', h1, h2, h3, h4, h5⟩ := ih
        (_structuredTextWidth M blk (curTokens ++ [word])).parts
        (_structuredTextWidth M blk (curTokens ++ [word])).width
        (by rw [hparts, List.map_append, hstable]; simp [fill_idem])
        (structuredTextWidth_width_eq_sumWidth M blk (curTokens ++ [word]))
        (by
          rcases not_and_or.mp hc with h | h
          · exact Or.inl (not_lt.mp h)
          · refine Or.inr ?_
            rw [structuredTextWidth_parts_length]
            exact not_lt.mp h)
      refine ⟨word :: g', gs', by simp [h1], h2, ?_, ?_, h5⟩
      · rw [hstep, h3, hparts]
        simp [List.append_assoc]
      · rw [hparts] at h4
        simpa [List.append_assoc] using h4

/-- Claim C6 (amended): the WordWrap output lines correspond, in order, to
a partition of the actual token stream into groups; each line is the fusion
of its group's (cache-filled, trim-adjusted) tokens, its recorded width is
the sum of those tokens' widths, and that width is ≤ the target width for
every line built from more than one atomic token — the only exceptions are
a line built from a single token (whose own measured width then exceeds the
target) and the empty line of an empty token stream (whose width 0 exceeds
any negative target). -/
theorem C6_wordwrap_fit_amended (M : String → List Char → ℚ) (blk : BlockDefaults)
    (splitFn : List Char → List (List Char)) (target : ℚ)
    (line : List (StructuredTextPart ℚ)) :
    ∃ (g : List (StructuredTextPart ℚ)) (gs : List (List (StructuredTextPart ℚ))),
      structuredTextWords splitFn line = g ++ gs.flatten ∧
      (∀ gi ∈ gs, gi ≠ []) ∧
      _parseStructuredTextLineWordWrap M blk splitFn target line
        = ⟨_fuseStructuredTextParts (g.map (fillPartWidth M blk)),
            sumWidth (g.map (fillPartWidth M blk))⟩
          :: gs.map (fun gi =>
              ⟨_fuseStructuredTextParts (wordWrapLaterTokens M blk gi),
                sumWidth (wordWrapLaterTokens M blk gi)⟩) ∧
      (sumWidth (g.map (fillPartWidth M blk)) ≤ target ∨ g.length ≤ 1) ∧
      (∀ gi ∈ gs, sumWidth (wordWrapLaterTokens M blk gi) ≤ target ∨ gi.length = 1) := by
  obtain ⟨g, gs, h1, h2, h3, h4, h5⟩ := wordWrapGo_groups M blk target
    (structuredTextWords splitFn line) [] 0 rfl rfl (Or.inr (by simp))
  refine ⟨g, gs, h1, h2, ?_, ?_, h5⟩
  · simpa using h3
  · simpa using h4

/-- Claim C6 (counterexample): with a negative target width, the empty
token stream yields the single line `⟨[], 0⟩`, whose width 0 exceeds the
target although the line does not consist of a single atomic token. -/
theorem C6_wordwrap_fit_counterexample :
    _parseStructuredTextLineWordWrap M0 blk0 _defaultWordSplittingFunction (-1) []
      = [⟨[], 0⟩] ∧
    ¬ ((0 : ℚ) ≤ -1) ∧
    (([] : List (StructuredTextPart ℚ)).length ≠ 1) := by
  refine ⟨rfl, by norm_num, by simp⟩

lemma concatText_singleton {W : Type} (p : StructuredTextPart W) :
    concatText [p] = p.text := by
  simp [concatText]

lemma wordWrapGo_partition (M : String → List Char → ℚ) (blk : BlockDefaults) (target : ℚ) :
    ∀ (words testLine : List (StructuredTextPart ℚ)) (testWidth : ℚ),
      ∃ (g : List (List Char)) (gs : List (List (List Char))),
        words.map (·.text) = g ++ gs.flatten ∧
        (∀ gi ∈ gs, gi ≠ []) ∧
        (wordWrapGo M blk target testLine testWidth words).map (fun l => concatText l.parts)
          = (concatText testLine ++ g.flatten) :: gs.map groupLineText := by
  intro words
  induction words with
  | nil =>
    intro testLine testWidth
    refine ⟨[], [], by simp, by simp, ?_⟩
    simp [wordWrapGo, fuse_concatText]
  | cons word rest ih =>
    intro testLine testWidth
    by_cases hc : target < (_structuredTextWidth M blk (testLine ++ [word])).width ∧
        1 < (testLine ++ [word]).length
    · obtain ⟨g', gs', h1, h2, h3⟩ :=
        ih (_structuredTextWidth M blk [lineStartToken word]).parts
           (_structuredTextWidth M blk [lineStartToken word]).width
      refine ⟨[], (word.text :: g') :: gs', ?_, ?_, ?_⟩
      · simp [h1]
      · intro gi hgi
        rcases List.mem_cons.mp hgi with h | h
        · subst h; simp
        · exact h2 gi h
      · simp only [wordWrapGo, if_pos hc, List.map_cons, h3]
        have hdrop : (_structuredTextWidth M blk (testLine ++ [word])).parts.dropLast
            = testLine.map (fillPartWidth M blk) := by
          rw [structuredTextWidth_parts]
          simp
        have hhd : concatText (_fuseStructuredTextParts
            (_structuredTextWidth M blk (testLine ++ [word])).parts.dropLast)
            = concatText testLine := by
          rw [fuse_concatText, hdrop, concatText_map_fill]
        have htl : concatText (_structuredTextWidth M blk [lineStartToken word]).parts
            = trimStart word.text := by
          rw [structuredTextWidth_parts]
          simp [concatText_singleton, fillPartWidth_text, lineStartToken]
        rw [hhd, htl]
        simp [groupLineText]
    · obtain ⟨g', gs', h1, h2, h3⟩ :=
        ih (_structuredTextWidth M blk (testLine ++ [word])).parts
           (_structuredTextWidth M blk (testLine ++ [word])).width
      refine ⟨word.text :: g', gs', ?_, h2, ?_⟩
      · simp [h1]
      · simp only [wordWrapGo, if_neg hc, h3]
        have : concatText (_structuredTextWidth M blk (testLine ++ [word])).parts
            = concatText testLine ++ word.text := by
          rw [structuredTextWidth_parts, concatText_map_fill, concatText_append,
            concatText_singleton]
        rw [this]
        simp [List.append_assoc]

/-- Claim C7: for every non-empty token stream (and any target width,
including ≤ 0) the structured WordWrap policy — a total function here —
emits a list of lines whose texts partition the token texts in order: a
non-empty first group and non-empty later groups, each later group's first
token left-trimmed, with every token in exactly one group and no token
dropped, duplicated, or split. -/
theorem C7_wordwrap_progress (M : String → List Char → ℚ) (blk : BlockDefaults)
    (splitFn : List Char → List (List Char)) (target : ℚ)
    (line : List (StructuredTextPart ℚ))
    (h : structuredTextWords splitFn line ≠ []) :
    ∃ (g : List (List Char)) (gs : List (List (List Char))),
      g ≠ [] ∧ (∀ gi ∈ gs, gi ≠ []) ∧
      (structuredTextWords splitFn line).map (·.text) = g ++ gs.flatten ∧
      (_parseStructuredTextLineWordWrap M blk splitFn target line).map
          (fun l => concatText l.parts)
        = g.flatten :: gs.map groupLineText := by
  obtain ⟨w, ws, hw⟩ := List.exists_cons_of_ne_nil h
  have hcond : ¬ (target < (_structuredTextWidth M blk ([] ++ [w])).width ∧
      1 < (([] : List (StructuredTextPart ℚ)) ++ [w]).length) := by
    simp
  obtain ⟨g', gs', h1, h2, h3⟩ :=
    wordWrapGo_partition M blk target ws
      (_structuredTextWidth M blk ([] ++ [w])).parts
      (_structuredTextWidth M blk ([] ++ [w])).width
  refine ⟨w.text :: g', gs', by simp, h2, ?_, ?_⟩
  · rw [hw]
    simp [h1]
  · rw [_parseStructuredTextLineWordWrap, hw]
    have hstep : wordWrapGo M blk target [] 0 (w :: ws)
        = wordWrapGo M blk target (_structuredTextWidth M blk ([] ++ [w])).parts
            (_structuredTextWidth M blk ([] ++ [w])).width ws := by
      simp only [wordWrapGo]
      rw [if_neg hcond]
    rw [hstep, h3]
    have : concatText (_structuredTextWidth M blk ([] ++ [w])).parts = w.text := by
      rw [structuredTextWidth_parts, concatText_map_fill]
      simp [concatText_singleton]
    rw [this]
    simp

/-- Witness for C7 on the concrete single-token line "hello". -/
theorem C7_wordwrap_progress_witness :
    structuredTextWords _defaultWordSplittingFunction [partH] ≠ [] ∧
    (∃ (g : List (List Char)) (gs : List (List (List Char))),
      g ≠ [] ∧ (∀ gi ∈ gs, gi ≠ []) ∧
      (structuredTextWords _defaultWordSplittingFunction [partH]).map (·.text)
        = g ++ gs.flatten ∧
      (_parseStructuredTextLineWordWrap M0 blk0 _defaultWordSplittingFunction 100 [partH]).map
          (fun l => concatText l.parts)
        = g.flatten :: gs.map groupLineText) :=
  ⟨by decide,
   C7_wordwrap_progress M0 blk0 _defaultWordSplittingFunction 100 [partH] (by decide)⟩

/-! ## C8: the Ellipsis policy -/

lemma mem_of_mem_dropLast {α : Type} {l : List α} {a : α} (h : a ∈ l.dropLast) : a ∈ l := by
  match l with
  | [] => simp at h
  | x :: xs =>
    rw [← List.dropLast_append_getLast (l := x :: xs) (by simp)]
    exact List.mem_append_left _ h

lemma measuredPartWidth_of_coherent {M : String → List Char → ℚ} {blk : BlockDefaults}
    {p : StructuredTextPart ℚ} (h : partCacheCoherent M blk p) :
    measuredPartWidth M blk p = pureMeasure M blk p := by
  cases hp : p.width with
  | some w => simpa [measuredPartWidth, hp, pureMeasure] using h w hp
  | none => simp [measuredPartWidth, hp, pureMeasure]

lemma coherent_of_width_none {M : String → List Char → ℚ} {blk : BlockDefaults}
    {p : StructuredTextPart ℚ} (h : p.width = none) : partCacheCoherent M blk p := by
  intro w hw
  rw [h] at hw
  exact Option.noConfusion hw

lemma coherent_fill {M : String → List Char → ℚ} {blk : BlockDefaults}
    {p : StructuredTextPart ℚ} (h : partCacheCoherent M blk p) :
    partCacheCoherent M blk (fillPartWidth M blk p) := by
  intro w hw
  have : w = measuredPartWidth M blk p := by
    simpa [fillPartWidth] using hw.symm
  rw [this, measuredPartWidth_of_coherent h]
  rfl

lemma pureMeasure_fill (M : String → List Char → ℚ) (blk : BlockDefaults)
    (p : StructuredTextPart ℚ) :
    pureMeasure M blk (fillPartWidth M blk p) = pureMeasure M blk p := rfl

lemma pureMeasureSum_map_fill (M : String → List Char → ℚ) (blk : BlockDefaults)
    (l : List (StructuredTextPart ℚ)) :
    pureMeasureSum M blk (l.map (fillPartWidth M blk)) = pureMeasureSum M blk l := by
  simp only [pureMeasureSum, List.map_map]
  congr 1

lemma pureMeasureSum_append (M : String → List Char → ℚ) (blk : BlockDefaults)
    (a b : List (StructuredTextPart ℚ)) :
    pureMeasureSum M blk (a ++ b) = pureMeasureSum M blk a + pureMeasureSum M blk b := by
  simp [pureMeasureSum]

lemma structuredTextWidth_width_coherent (M : String → List Char → ℚ) (blk : BlockDefaults)
    {l : List (StructuredTextPart ℚ)} (h : ∀ p ∈ l, partCacheCoherent M blk p) :
    (_structuredTextWidth M blk l).width = pureMeasureSum M blk l := by
  rw [structuredTextWidth_width, pureMeasureSum]
  congr 1
  exact List.map_congr_left (fun p hp => measuredPartWidth_of_coherent (h p hp))

lemma pureMeasureSum_nil (M : String → List Char → ℚ) (blk : BlockDefaults) :
    pureMeasureSum M blk [] = 0 := rfl

lemma pureMeasureSum_singleton (M : String → List Char → ℚ) (blk : BlockDefaults)
    (p : StructuredTextPart ℚ) :
    pureMeasureSum M blk [p] = pureMeasure M blk p := by
  simp [pureMeasureSum]

lemma ellipsisShrink_spec (M : String → List Char → ℚ) (blk : BlockDefaults) (target : ℚ) :
    ∀ (fuel : Nat) (chars : List Char) (pfx : List (StructuredTextPart ℚ))
      (lastPart : StructuredTextPart ℚ) (lineWidth : ℚ)
      (s : List (StructuredTextPart ℚ) × StructuredTextPart ℚ × ℚ),
      s = ellipsisShrink M blk target fuel chars pfx lastPart lineWidth →
      chars.length = fuel →
      (∀ p ∈ pfx, partCacheCoherent M blk p) →
      (s.1 = pfx ∨ s.1 = pfx.map (fillPartWidth M blk)) ∧
      fontDescriptionFor blk s.2.1 = fontDescriptionFor blk lastPart ∧
      (¬ target < s.2.2 ∨
        (s.2.1 = lastPart ∧ s.2.2 = lineWidth ∧ chars = []) ∨
        (s.2.1.text = [ellipsisMarker] ∧
          s.2.2 = pureMeasureSum M blk pfx
            + M (fontDescriptionFor blk lastPart) [ellipsisMarker])) := by
  intro fuel
  induction fuel with
  | zero =>
    intro chars pfx lastPart w s hs hlen hcoh
    have hch : chars = [] := List.length_eq_zero.mp hlen
    subst hs
    refine ⟨Or.inl rfl, rfl, ?_⟩
    by_cases h : target < w
    · exact Or.inr (Or.inl ⟨rfl, rfl, hch⟩)
    · exact Or.inl h
  | succ n ihn =>
    intro chars pfx lastPart w s hs hlen hcoh
    by_cases hlt : target < w
    · have hstep : ellipsisShrink M blk target (n + 1) chars pfx lastPart w
          = ellipsisShrink M blk target n chars.dropLast
              (_structuredTextWidth M blk
                (pfx ++ [truncatedPart lastPart chars.dropLast])).parts.dropLast
              ((_structuredTextWidth M blk
                (pfx ++ [truncatedPart lastPart chars.dropLast])).parts.getLastD
                (truncatedPart lastPart chars.dropLast))
              (_structuredTextWidth M blk
                (pfx ++ [truncatedPart lastPart chars.dropLast])).width := by
        simp [ellipsisShrink, hlt, truncatedPart]
      have hparts : (_structuredTextWidth M blk
            (pfx ++ [truncatedPart lastPart chars.dropLast])).parts
          = pfx.map (fillPartWidth M blk)
              ++ [fillPartWidth M blk (truncatedPart lastPart chars.dropLast)] := by
        rw [structuredTextWidth_parts]
        simp
      have hdrop : (_structuredTextWidth M blk
            (pfx ++ [truncatedPart lastPart chars.dropLast])).parts.dropLast
          = pfx.map (fillPartWidth M blk) := by
        rw [hparts]
        simp
      have hlast : (_structuredTextWidth M blk
            (pfx ++ [truncatedPart lastPart chars.dropLast])).parts.getLastD
            (truncatedPart lastPart chars.dropLast)
          = fillPartWidth M blk (truncatedPart lastPart chars.dropLast) := by
        rw [hparts]
        exact List.getLastD_concat _ _ _
      have hlen2 : chars.dropLast.length = n := by
        rw [List.length_dropLast]
        omega
      have hcoh2 : ∀ p ∈ pfx.map (fillPartWidth M blk), partCacheCoherent M blk p := by
        intro p hp
        obtain ⟨q, hq, rfl⟩ := List.mem_map.mp hp
        exact coherent_fill (hcoh q hq)
      obtain ⟨hA, hfd, hdisj⟩ := ihn chars.dropLast (pfx.map (fillPartWidth M blk))
        (fillPartWidth M blk (truncatedPart lastPart chars.dropLast))
        (_structuredTextWidth M blk
          (pfx ++ [truncatedPart lastPart chars.dropLast])).width
        s (by rw [hs, hstep, hdrop, hlast]) hlen2 hcoh2
      refine ⟨?_, ?_, ?_⟩
      · rcases hA with h | h
        · exact Or.inr h
        · refine Or.inr ?_
          rw [h, List.map_map]
          exact List.map_congr_left (fun q _ => fill_idem M blk q)
      · rw [hfd]
        rfl
      · rcases hdisj with h | h | h
        · exact Or.inl h
        · obtain ⟨hs1, hs2, hc2⟩ := h
          refine Or.inr (Or.inr ⟨?_, ?_⟩)
          · rw [hs1]
            show chars.dropLast ++ [ellipsisMarker] = [ellipsisMarker]
            rw [hc2]
            rfl
          · rw [hs2]
            have hcohall : ∀ p ∈ pfx ++ [truncatedPart lastPart chars.dropLast],
                partCacheCoherent M blk p := by
              intro p hp
              rcases List.mem_append.mp hp with h | h
              · exact hcoh p h
              · rcases List.mem_singleton.mp h with rfl
                exact coherent_of_width_none rfl
            rw [structuredTextWidth_width_coherent M blk hcohall, pureMeasureSum_append,
              pureMeasureSum_singleton]
            congr 1
            show M (fontDescriptionFor blk lastPart) (chars.dropLast ++ [ellipsisMarker]) = _
            rw [hc2]
            rfl
        · obtain ⟨ht, hv⟩ := h
          refine Or.inr (Or.inr ⟨ht, ?_⟩)
          rw [hv, pureMeasureSum_map_fill]
          rfl
    · subst hs
      have hstep : ellipsisShrink M blk target (n + 1) chars pfx lastPart w
          = (pfx, lastPart, w) := by
        simp [ellipsisShrink, hlt]
      rw [hstep]
      exact ⟨Or.inl rfl, rfl, Or.inl hlt⟩

lemma ellipsisOuter_succ (M : String → List Char → ℚ) (blk : BlockDefaults) (target : ℚ)
    (n : Nat) (line : List (StructuredTextPart ℚ)) (hne : line ≠ []) (w : ℚ)
    (hlt : target < w) :
    ellipsisOuter M blk target (n + 1) line w =
      (fun s => if target < s.2.2 then ellipsisOuter M blk target n s.1 s.2.2
                else (s.1 ++ [s.2.1], s.2.2))
        (ellipsisShrink M blk target (line.getLast hne).text.length (line.getLast hne).text
          line.dropLast (line.getLast hne) w) := by
  match line with
  | p :: ps => simp [ellipsisOuter, hlt]

lemma ellipsisOuter_spec (M : String → List Char → ℚ) (blk : BlockDefaults) (target : ℚ)
    (F : List String) (H0 : ∀ fd, M fd [] = 0) :
    ∀ (fuel : Nat) (line : List (StructuredTextPart ℚ)) (lineWidth : ℚ),
      line.length = fuel →
      (∀ p ∈ line, partCacheCoherent M blk p) →
      (∀ p ∈ line, fontDescriptionFor blk p ∈ F) →
      (lineWidth = pureMeasureSum M blk line ∨
        ∃ fd ∈ F, lineWidth = pureMeasureSum M blk line + M fd [ellipsisMarker]) →
      (ellipsisOuter M blk target fuel line lineWidth).2 ≤ target ∨
        ((ellipsisOuter M blk target fuel line lineWidth).1 = [] ∧
          ((ellipsisOuter M blk target fuel line lineWidth).2 = 0 ∨
            ∃ fd ∈ F, (ellipsisOuter M blk target fuel line lineWidth).2
              = M fd [ellipsisMarker])) := by
  intro fuel
  induction fuel with
  | zero =>
    intro line w hlen hcoh hfds hinv
    have hl : line = [] := List.length_eq_zero.mp hlen
    subst hl
    refine Or.inr ⟨rfl, ?_⟩
    rcases hinv with h | ⟨fd, hfd, h⟩
    · exact Or.inl (by simpa [pureMeasureSum_nil] using h)
    · exact Or.inr ⟨fd, hfd, by simpa [pureMeasureSum_nil] using h⟩
  | succ n ihn =>
    intro line w hlen hcoh hfds hinv
    have hne : line ≠ [] := by
      intro h
      subst h
      simp at hlen
    by_cases hlt : target < w
    · rw [ellipsisOuter_succ M blk target n line hne w hlt]
      obtain ⟨hA, hfd, hdisj⟩ := ellipsisShrink_spec M blk target
        (line.getLast hne).text.length (line.getLast hne).text line.dropLast
        (line.getLast hne) w
        (ellipsisShrink M blk target (line.getLast hne).text.length (line.getLast hne).text
          line.dropLast (line.getLast hne) w)
        rfl rfl
        (fun p hp => hcoh p (mem_of_mem_dropLast hp))
      set s := ellipsisShrink M blk target (line.getLast hne).text.length
        (line.getLast hne).text line.dropLast (line.getLast hne) w with hs_def
      dsimp only
      have hline : line.dropLast ++ [line.getLast hne] = line :=
        List.dropLast_append_getLast hne
      have hpmsS : pureMeasureSum M blk s.1 = pureMeasureSum M blk line.dropLast := by
        rcases hA with h | h
        · rw [h]
        · rw [h, pureMeasureSum_map_fill]
      have hlenS : s.1.length = n := by
        have : line.dropLast.length = n := by
          rw [List.length_dropLast]
          omega
        rcases hA with h | h
        · rw [h, this]
        · rw [h, List.length_map, this]
      have hcohS : ∀ p ∈ s.1, partCacheCoherent M blk p := by
        rcases hA with h | h
        · rw [h]
          exact fun p hp => hcoh p (mem_of_mem_dropLast hp)
        · rw [h]
          intro p hp
          obtain ⟨q, hq, rfl⟩ := List.mem_map.mp hp
          exact coherent_fill (hcoh q (mem_of_mem_dropLast hq))
      have hfdsS : ∀ p ∈ s.1, fontDescriptionFor blk p ∈ F := by
        rcases hA with h | h
        · rw [h]
          exact fun p hp => hfds p (mem_of_mem_dropLast hp)
        · rw [h]
          intro p hp
          obtain ⟨q, hq, rfl⟩ := List.mem_map.mp hp
          exact hfds q (mem_of_mem_dropLast hq)
      by_cases h2 : target < s.2.2
      · rw [if_pos h2]
        refine ihn s.1 s.2.2 hlenS hcohS hfdsS ?_
        rcases hdisj with h | h | h
        · exact absurd h2 h
        · obtain ⟨hs1, hs2, hch⟩ := h
          have hlast0 : pureMeasure M blk (line.getLast hne) = 0 := by
            rw [pureMeasure, hch]
            exact H0 _
          have hpmsline : pureMeasureSum M blk line = pureMeasureSum M blk line.dropLast := by
            conv_lhs => rw [← hline]
            rw [pureMeasureSum_append, pureMeasureSum_singleton, hlast0, add_zero]
          rcases hinv with h | ⟨fd, hfdF, h⟩
          · exact Or.inl (by rw [hs2, h, hpmsline, hpmsS])
          · exact Or.inr ⟨fd, hfdF, by rw [hs2, h, hpmsline, hpmsS]⟩
        · obtain ⟨ht, hv⟩ := h
          refine Or.inr ⟨fontDescriptionFor blk (line.getLast hne),
            hfds _ (List.getLast_mem hne), ?_⟩
          rw [hv, hpmsS]
      · rw [if_neg h2]
        exact Or.inl (not_lt.mp h2)
    · have : ellipsisOuter M blk target (n + 1) line w = (line, w) := by
        match line, hne with
        | p :: ps, _ => simp [ellipsisOuter, hlt]
      rw [this]
      exact Or.inl (not_lt.mp hlt)

/-- Claim C8: the Ellipsis policy (a total function here) emits a line
whose recorded width is ≤ the target width, unless the group was reduced to
empty; in that case the recorded width is either 0 (the group was empty to
begin with) or exactly the measured width of the bare ellipsis marker under
one of the group's fonts — i.e. it can still exceed the target only when
the marker alone does.  Hypotheses: the measurement service gives empty
text width 0, and the input caches are coherent with the service (the
spec's width-cache invariant). -/
theorem C8_ellipsis_monotonicity (M : String → List Char → ℚ) (blk : BlockDefaults)
    (target : ℚ) (line : List (StructuredTextPart ℚ))
    (H0 : ∀ fd, M fd [] = 0)
    (Hcoh : ∀ p ∈ line, partCacheCoherent M blk p) :
    (_parseStructuredTextLineEllipsis M blk target line).width ≤ target ∨
    ((_parseStructuredTextLineEllipsis M blk target line).parts = [] ∧
      ((_parseStructuredTextLineEllipsis M blk target line).width = 0 ∨
        ∃ p ∈ line, (_parseStructuredTextLineEllipsis M blk target line).width
          = M (fontDescriptionFor blk p) [ellipsisMarker])) := by
  have h := ellipsisOuter_spec M blk target (line.map (fontDescriptionFor blk)) H0
    (_structuredTextWidth M blk line).parts.length
    (_structuredTextWidth M blk line).parts
    (_structuredTextWidth M blk line).width
    rfl
    (by
      rw [structuredTextWidth_parts]
      intro p hp
      obtain ⟨q, hq, rfl⟩ := List.mem_map.mp hp
      exact coherent_fill (Hcoh q hq))
    (by
      rw [structuredTextWidth_parts]
      intro p hp
      obtain ⟨q, hq, rfl⟩ := List.mem_map.mp hp
      rw [fillPartWidth_fontDescription]
      exact List.mem_map_of_mem _ hq)
    (Or.inl (by
      rw [structuredTextWidth_width_coherent M blk Hcoh, structuredTextWidth_parts,
        pureMeasureSum_map_fill]))
  rcases h with h | ⟨hparts, hw⟩
  · exact Or.inl h
  · refine Or.inr ⟨hparts, ?_⟩
    rcases hw with h0 | ⟨fd, hfd, heq⟩
    · exact Or.inl h0
    · obtain ⟨p, hp, rfl⟩ := List.mem_map.mp hfd
      exact Or.inr ⟨p, hp, heq⟩

/-- Witness for C8 at a concrete group and target. -/
theorem C8_ellipsis_monotonicity_witness :
    (_parseStructuredTextLineEllipsis M0 blk0 10 [partH]).width ≤ 10 ∨
    ((_parseStructuredTextLineEllipsis M0 blk0 10 [partH]).parts = [] ∧
      ((_parseStructuredTextLineEllipsis M0 blk0 10 [partH]).width = 0 ∨
        ∃ p ∈ [partH], (_parseStructuredTextLineEllipsis M0 blk0 10 [partH]).width
          = M0 (fontDescriptionFor blk0 p) [ellipsisMarker])) :=
  C8_ellipsis_monotonicity M0 blk0 10 [partH] (fun _ => rfl)
    (by
      intro p hp
      rcases List.mem_singleton.mp hp with rfl
      exact coherent_of_width_none rfl)
